import Mathlib

/-!
Verification of the nedb-models data-access layer.

The development shallowly embeds the Model class of src/src/Model.js.
JavaScript values relevant to the layer are embedded as the inductive
type Val.  Store-touching operations are embedded in a small effect
type Eff that records, next to the produced value, the ordered list of
storage-engine executions the operation performed; this makes eager
versus lazy execution and the absence of a storage call provable facts.

The repository ships only Model.js; its collaborators, namely the
helpers augmenter, converter and datastore and the Extension base
class, are not part of the sources.  Those are modelled from the
specification text, and each such definition carries a doc comment
saying so.
-/

/-- Embedding of the JavaScript values that flow through the layer:
undefined, null, booleans, numbers, strings, arrays and plain objects.
An object is an ordered list of key-value pairs with unique keys, the
way JavaScript objects enumerate. -/
inductive Val where
  | undef
  | null
  | bool (b : Bool)
  | num (n : Int)
  | str (s : String)
  | arr (xs : List Val)
  | obj (fs : List (String × Val))

/-- JavaScript truthiness on the embedded values: undefined, null,
false, 0 and the empty string are falsy, everything else is truthy. -/
def truthy : Val → Bool
  | Val.undef => false
  | Val.null => false
  | Val.bool b => b
  | Val.num n => !(n == 0)
  | Val.str s => !(s == "")
  | Val.arr _ => true
  | Val.obj _ => true

/-- Tests whether a value is a plain object. -/
def Val.isObj : Val → Bool
  | .obj _ => true
  | _ => false

/-- Tests whether a value is null or undefined. -/
def Val.isNullish : Val → Bool
  | .null => true
  | .undef => true
  | _ => false

/-- First binding of a key in an object field list, the way JavaScript
property lookup finds the single binding of a key. -/
def lookupF : List (String × Val) → String → Option Val
  | [], _ => none
  | (k, v) :: rest, key => if k = key then some v else lookupF rest key

/-- Property write on an object field list: replaces the binding of the
key if present, otherwise appends a new binding at the end, the way a
JavaScript property assignment behaves. -/
def setKey : List (String × Val) → String → Val → List (String × Val)
  | [], k, v => [(k, v)]
  | (k0, v0) :: rest, k, v =>
    if k0 = k then (k, v) :: rest else (k0, v0) :: setKey rest k v

/-- Property deletion on an object field list, the way the JavaScript
delete operator removes a key. -/
def eraseKey (l : List (String × Val)) (k : String) : List (String × Val) :=
  l.filter (fun p => p.1 != k)

mutual
/-- Modelled from the spec: the Defaults Resolver of helpers/augmenter,
which is not under the shipped sources.  Spec section 4.1: the merge is
recursive for nested mapping values; for each key of the defaults, if
both values are mappings the merge recurses, otherwise the override
value replaces the default unless it is null or undefined; keys present
only in the overrides are added; a non-mapping overrides argument is
treated as an empty mapping, yielding the defaults themselves. -/
def augment : Val → Val → Val
  | Val.obj ds, Val.obj os =>
      Val.obj (augFields ds os ++ os.filter (fun p => (lookupF ds p.1).isNone))
  | d, o => if o.isObj then o else d

def augFields : List (String × Val) → List (String × Val) → List (String × Val)
  | [], _ => []
  | (k, dv) :: ds, os =>
      (k, match lookupF os k with
          | none => dv
          | some ov =>
            if dv.isObj && ov.isObj then augment dv ov
            else if ov.isNullish then dv else ov) :: augFields ds os
end

/-- A model instance is a mutable field bag; the embedding carries its
enumerable fields in insertion order. -/
structure ModelInstance where
  fields : List (String × Val)

/-- Field bag after Model.prototype.assign: every enumerable key of the
argument is written onto the current fields in order; a non-object
argument is treated as an empty object and changes nothing
(Model.js lines 27 to 36). -/
def assignFields (cur : List (String × Val)) (v : Val) : List (String × Val) :=
  match v with
  | Val.obj fs => fs.foldl (fun acc p => setKey acc p.1 p.2) cur
  | _ => cur

/-- Model.prototype.assign as a state transformer on the instance. -/
def ModelInstance.assign (i : ModelInstance) (v : Val) : ModelInstance :=
  ⟨assignFields i.fields v⟩

/-- Model.prototype.toPOJO: the plain object snapshot of the instance
fields (Model.js lines 98 to 103). -/
def ModelInstance.toPOJO (i : ModelInstance) : Val :=
  Val.obj i.fields

/-- Reading an instance field; an absent field reads as undefined. -/
def getF (i : ModelInstance) (k : String) : Val :=
  (lookupF i.fields k).getD Val.undef

/-- Hydration of one raw value into a model instance: the constructor
assigns every enumerable field of the record onto a fresh instance;
a non-object record hydrates to an empty instance because assign
treats it as an empty object (Model.js lines 11 to 13 and 27 to 36). -/
def hydrateVal (v : Val) : ModelInstance :=
  ⟨assignFields [] v⟩

/-- Shape-polymorphic result of the Result Hydrator: a passthrough raw
value, one instance, or an ordered list of instances. -/
inductive Hyd where
  | raw (v : Val)
  | one (i : ModelInstance)
  | many (xs : List ModelInstance)

/-- Modelled from the spec: the Result Hydrator of helpers/converter,
which is not under the shipped sources.  Spec section 4.3: null passes
through, a single record becomes one instance, an ordered sequence
becomes an ordered sequence of instances preserving order, and a
scalar passes through unchanged. -/
def convert : Val → Hyd
  | Val.obj fs => Hyd.one (hydrateVal (Val.obj fs))
  | Val.arr xs => Hyd.many (xs.map hydrateVal)
  | v => Hyd.raw v

/-- Modelled from the spec: one storage-engine execution, spec section
6.  The find constructor stands for the terminal execution of a cursor,
since the engine-side find only builds a lazy cursor. -/
inductive StoreCall where
  | find (query projection : Val)
  | findOne (query projection : Val)
  | count (query : Val)
  | insert (values : Val)
  | update (query values options : Val)
  | remove (query options : Val)

/-- Modelled from the spec: the storage engine as an external
collaborator, abstracted as the eventual raw value it yields for each
execution. -/
abbrev Engine := StoreCall → Val

/-- Store-touching computations: given an engine, a computation yields
its value together with the ordered list of engine executions it
performed. -/
abbrev Eff (α : Type) := Engine → α × List StoreCall

/-- Computation that performs no engine execution. -/
def pureE {α : Type} (a : α) : Eff α := fun _ => (a, [])

/-- Sequencing of computations, concatenating their execution lists. -/
def bindE {α β : Type} (m : Eff α) (f : α → Eff β) : Eff β :=
  fun eng => ((f (m eng).1 eng).1, (m eng).2 ++ (f (m eng).1 eng).2)

/-- Computation that performs exactly one engine execution and yields
the raw engine answer. -/
def callE (c : StoreCall) : Eff Val := fun eng => (eng c, [c])

/-- Value produced by a computation under a given engine. -/
def resultOf {α : Type} (m : Eff α) (eng : Engine) : α := (m eng).1

/-- Ordered list of engine executions a computation performs under a
given engine. -/
def traceOf {α : Type} (m : Eff α) (eng : Engine) : List StoreCall := (m eng).2

/-- The three-key defaults structure of a model type
(Model.js lines 76 to 82). -/
structure Defaults where
  query : Val
  projection : Val
  values : Val

namespace Model

/-- Static defaults of the base Model class: three empty mappings
(Model.js lines 76 to 82). -/
def defaults : Defaults :=
  ⟨Val.obj [], Val.obj [], Val.obj []⟩

/-- Default-parameter behavior of the static methods: an absent query
argument, that is undefined, becomes the empty object. -/
def defQ (q : Val) : Val :=
  match q with
  | Val.undef => Val.obj []
  | q => q

/-- Model.find (Model.js lines 210 to 224): merges query and
projection with the type defaults, builds the cursor synchronously,
and replaces the terminal execution of the cursor by one that passes
the raw result through the Result Hydrator. -/
structure Cursor where
  query : Val
  projection : Val
  exec : Eff Hyd

def find (dfl : Defaults) (query projection : Val) : Cursor :=
  { query := augment dfl.query (defQ query)
    projection := augment dfl.projection projection
    exec := bindE
      (callE (StoreCall.find (augment dfl.query (defQ query))
        (augment dfl.projection projection)))
      (fun raw => pureE (convert raw)) }

/-- Model.find viewed as a computation: the method body performs no
engine execution of its own, it only returns the cursor. -/
def findM (dfl : Defaults) (query projection : Val) : Eff Cursor :=
  pureE (find dfl query projection)

/-- Model.findOne (Model.js lines 236 to 243). -/
def findOne (dfl : Defaults) (query projection : Val) : Eff Hyd :=
  bindE
    (callE (StoreCall.findOne (augment dfl.query (defQ query))
      (augment dfl.projection projection)))
    (fun raw => pureE (convert raw))

/-- Model.count (Model.js lines 254 to 260). -/
def count (dfl : Defaults) (query : Val) : Eff Hyd :=
  bindE (callE (StoreCall.count (augment dfl.query (defQ query))))
    (fun raw => pureE (convert raw))

/-- Effective insert payload (Model.js lines 281 to 285): the values
default is merged into each element of an array argument, or into a
single non-array argument. -/
def insertPayload (dfl : Defaults) (values : Val) : Val :=
  match values with
  | Val.arr vs => Val.arr (vs.map (augment dfl.values))
  | v => augment dfl.values v

/-- Model.insert (Model.js lines 280 to 290). -/
def insert (dfl : Defaults) (values : Val) : Eff Hyd :=
  bindE (callE (StoreCall.insert (insertPayload dfl values)))
    (fun raw => pureE (convert raw))

/-- Model.update (Model.js lines 311 to 317): the options are merged
over the default with multi set to true; the query is passed to the
engine as given, only replaced by the empty object when absent. -/
def update (_dfl : Defaults) (query values options : Val) : Eff Hyd :=
  bindE
    (callE (StoreCall.update (defQ query) values
      (augment (Val.obj [("multi", Val.bool true)]) options)))
    (fun raw => pureE (convert raw))

/-- Model.remove (Model.js lines 335 to 341): the options are merged
over the default with multi set to true. -/
def remove (_dfl : Defaults) (query options : Val) : Eff Hyd :=
  bindE
    (callE (StoreCall.remove (defQ query)
      (augment (Val.obj [("multi", Val.bool true)]) options)))
    (fun raw => pureE (convert raw))

/-- Model.create (Model.js lines 352 to 354): an alias to insert. -/
def create (dfl : Defaults) (values : Val) : Eff Hyd :=
  insert dfl values

end Model

/-- Value that Model.prototype.save assigns back onto the instance:
the JavaScript expression takes element zero when the hydrated result
is an array, otherwise the result itself (Model.js lines 143 to 147).
A hydrated instance yields its own field object, matching the way
assign enumerates the keys of a model instance. -/
def hydFirst : Hyd → Val
  | Hyd.raw (Val.arr (x :: _)) => x
  | Hyd.raw (Val.arr []) => Val.undef
  | Hyd.raw v => v
  | Hyd.one i => Val.obj i.fields
  | Hyd.many [] => Val.undef
  | Hyd.many (i :: _) => Val.obj i.fields

/-- Model.prototype.save (Model.js lines 131 to 150): with a truthy
identifier the class-level update is issued on the identifier with a
set modifier of the field snapshot and the option returnUpdatedDocs set
to true; without one the class-level insert of the field snapshot is
issued; the result, or its first element when it is an array, is
assigned onto this, and this itself is returned, embedded here as the
produced instance state. -/
def ModelInstance.save (dfl : Defaults) (i : ModelInstance) : Eff ModelInstance :=
  bindE
    (if truthy (getF i "_id") then
      Model.update dfl (Val.obj [("_id", getF i "_id")])
        (Val.obj [("$set", i.toPOJO)])
        (Val.obj [("returnUpdatedDocs", Val.bool true)])
    else
      Model.insert dfl i.toPOJO)
    (fun result => pureE (i.assign (hydFirst result)))

/-- Model.prototype.remove (Model.js lines 163 to 169): with a falsy
identifier the method returns zero and performs no storage call;
otherwise the class-level remove is issued on the identifier with the
option multi set to false.  The produced pair carries the instance
state, which the method never changes, next to the returned value. -/
def ModelInstance.remove (dfl : Defaults) (i : ModelInstance) :
    Eff (ModelInstance × Hyd) :=
  if truthy (getF i "_id") then
    bindE
      (Model.remove dfl (Val.obj [("_id", getF i "_id")])
        (Val.obj [("multi", Val.bool false)]))
      (fun r => pureE (i, r))
  else
    pureE (i, Hyd.raw (Val.num 0))

/-- Model.prototype.duplicate (Model.js lines 183 to 187): snapshots
the fields, deletes the identifier on the snapshot, and issues the
class-level insert of the snapshot; the instance state is untouched. -/
def ModelInstance.duplicate (dfl : Defaults) (i : ModelInstance) :
    Eff (ModelInstance × Hyd) :=
  bindE (Model.insert dfl (Val.obj (eraseKey i.fields "_id")))
    (fun r => pureE (i, r))

/-- Modelled from the spec: the observable shape of one constructed
extension instance, since the Extension base class is not under the
shipped sources.  Spec sections 3 and 4.4: an instance may or may not
be an Extension, may or may not implement apply, and its apply yields
a boolean. -/
structure ExtInstance where
  isExtension : Bool
  hasApply : Bool
  applyResult : Bool
deriving DecidableEq

/-- JavaScript value universe for the capability check inside
Model.use: the operand is either a primitive boolean, produced by the
logical negation, or the constructed extension instance. -/
inductive UVal where
  | bool (b : Bool)
  | inst (i : ExtInstance)
deriving DecidableEq

/-- Truthiness on that universe; an object is always truthy. -/
def UVal.truthy : UVal → Bool
  | .bool b => b
  | .inst _ => true

/-- JavaScript logical negation, which yields a primitive boolean. -/
def UVal.jsNot (v : UVal) : UVal :=
  UVal.bool (!v.truthy)

/-- JavaScript instanceof with right operand Extension: a primitive is
never an instance of anything; an object is one exactly when its
prototype chain carries Extension. -/
def instanceOfExtension : UVal → Bool
  | UVal.bool _ => false
  | UVal.inst i => i.isExtension

/-- One extension argument to Model.use: whether the argument passes
the typeof function test, and the instance its construction yields. -/
structure ExtSpec where
  isFunction : Bool
  inst : ExtInstance
deriving DecidableEq

/-- Outcome of one JavaScript call: a returned boolean or a thrown
TypeError. -/
inductive UseOutcome where
  | ret (b : Bool)
  | throw
deriving DecidableEq

/-- Model.use on a single extension (Model.js lines 373 to 384),
embedded instruction by instruction.  A non-function argument returns
false.  Otherwise the instance is constructed and the guard evaluates
the written expression, in which the logical negation binds tighter
than instanceof, so the guard tests whether the negation result, a
primitive boolean, is an instance of Extension.  When the guard does
not fire, apply is invoked when present and its result returned, and a
missing apply raises a TypeError.  The boolean next to the outcome
records whether apply was invoked. -/
def useSingle (e : ExtSpec) : UseOutcome × Bool :=
  if e.isFunction then
    if instanceOfExtension (UVal.jsNot (UVal.inst e.inst)) then
      (UseOutcome.ret false, false)
    else if e.inst.hasApply then
      (UseOutcome.ret e.inst.applyResult, true)
    else
      (UseOutcome.throw, false)
  else
    (UseOutcome.ret false, false)

/-- Model.use on an array (Model.js lines 367 to 371): a reduce over
the extensions with initial accumulator true, each step evaluating the
conjunction of the accumulator and the recursive use of the element.
The JavaScript conjunction short-circuits, so the recursive call is
skipped once the accumulator is false.  The produced list records, per
element in order, whether its apply was invoked; a thrown error aborts
the reduce and marks the remaining elements as not invoked. -/
def useList : List ExtSpec → Bool → UseOutcome × List Bool
  | [], acc => (UseOutcome.ret acc, [])
  | e :: es, acc =>
    if acc then
      match useSingle e with
      | (UseOutcome.throw, inv) => (UseOutcome.throw, inv :: es.map (fun _ => false))
      | (UseOutcome.ret b, inv) => ((useList es b).1, inv :: (useList es b).2)
    else
      ((useList es false).1, false :: (useList es false).2)

/-- Argument of Model.use: one extension or an array of extensions. -/
inductive UseArg where
  | one (e : ExtSpec)
  | many (es : List ExtSpec)

/-- Model.use (Model.js lines 366 to 384). -/
def Model.use : UseArg → UseOutcome × List Bool
  | UseArg.one e => ((useSingle e).1, [(useSingle e).2])
  | UseArg.many es => useList es true

lemma lookupF_setKey (l : List (String × Val)) (k : String) (v : Val) (key : String) :
    lookupF (setKey l k v) key = if k = key then some v else lookupF l key := by
  induction l with
  | nil => simp [setKey, lookupF]
  | cons p rest ih =>
    obtain ⟨k0, v0⟩ := p
    by_cases h0 : k0 = k
    · subst h0
      by_cases hk : k0 = key <;> simp [setKey, lookupF, hk]
    · by_cases hk : k0 = key
      · subst hk
        have hne : k ≠ k0 := fun hh => h0 hh.symm
        simp [setKey, lookupF, h0, hne]
      · simp [setKey, lookupF, h0, hk, ih]

lemma lookupF_eq_none_of_forall (l : List (String × Val)) (k : String)
    (h : ∀ p ∈ l, p.1 ≠ k) : lookupF l k = none := by
  induction l with
  | nil => rfl
  | cons p rest ih =>
    obtain ⟨k0, v0⟩ := p
    have h0 : k0 ≠ k := h (k0, v0) (List.mem_cons_self _ _)
    simp only [lookupF, if_neg h0]
    exact ih (fun q hq => h q (List.mem_cons_of_mem _ hq))

lemma forall_ne_of_lookupF_eq_none (l : List (String × Val)) (k : String)
    (h : lookupF l k = none) : ∀ p ∈ l, p.1 ≠ k := by
  induction l with
  | nil => intro p hp; cases hp
  | cons q rest ih =>
    obtain ⟨k0, v0⟩ := q
    by_cases h0 : k0 = k
    · simp [lookupF, h0] at h
    · intro p hp
      rcases List.mem_cons.mp hp with hp | hp
      · subst hp; exact h0
      · refine ih ?_ p hp
        simpa [lookupF, h0] using h

lemma setKey_eq_append (l : List (String × Val)) (k : String) (v : Val)
    (h : ∀ p ∈ l, p.1 ≠ k) : setKey l k v = l ++ [(k, v)] := by
  induction l with
  | nil => rfl
  | cons p rest ih =>
    obtain ⟨k0, v0⟩ := p
    have h0 : k0 ≠ k := h (k0, v0) (List.mem_cons_self _ _)
    simp only [setKey, if_neg h0, List.cons_append, List.cons.injEq, true_and]
    exact ih (fun q hq => h q (List.mem_cons_of_mem _ hq))

lemma lookupF_append (l1 l2 : List (String × Val)) (k : String) :
    lookupF (l1 ++ l2) k
      = match lookupF l1 k with
        | some v => some v
        | none => lookupF l2 k := by
  induction l1 with
  | nil => simp [lookupF]
  | cons p rest ih =>
    obtain ⟨k0, v0⟩ := p
    by_cases h0 : k0 = k <;> simp [lookupF, h0, ih]

lemma assignFields_disjoint (fs : List (String × Val)) :
    ∀ cur : List (String × Val), (fs.map Prod.fst).Nodup →
      (∀ p ∈ fs, lookupF cur p.1 = none) →
      assignFields cur (Val.obj fs) = cur ++ fs := by
  induction fs with
  | nil => intro cur _ _; simp [assignFields]
  | cons p rest ih =>
    intro cur hnd hdisj
    obtain ⟨k1, v1⟩ := p
    have hset : setKey cur k1 v1 = cur ++ [(k1, v1)] :=
      setKey_eq_append cur k1 v1
        (forall_ne_of_lookupF_eq_none cur k1 (hdisj (k1, v1) (List.mem_cons_self _ _)))
    have hnd2 : k1 ∉ rest.map Prod.fst ∧ (rest.map Prod.fst).Nodup := by
      simp only [List.map_cons, List.nodup_cons] at hnd
      exact hnd
    have hnd1 : k1 ∉ rest.map Prod.fst := hnd2.1
    have hrest : assignFields (cur ++ [(k1, v1)]) (Val.obj rest) = (cur ++ [(k1, v1)]) ++ rest := by
      refine ih (cur ++ [(k1, v1)]) hnd2.2 ?_
      intro q hq
      rw [lookupF_append]
      rw [hdisj q (List.mem_cons_of_mem _ hq)]
      have hqk : k1 ≠ q.1 := by
        intro hh
        exact hnd1 (hh ▸ List.mem_map_of_mem Prod.fst hq)
      simp [lookupF, hqk]
    calc assignFields cur (Val.obj ((k1, v1) :: rest))
        = assignFields (setKey cur k1 v1) (Val.obj rest) := by simp [assignFields]
      _ = (cur ++ [(k1, v1)]) ++ rest := by rw [hset, hrest]
      _ = cur ++ ((k1, v1) :: rest) := by simp

lemma hydrateVal_obj_of_nodup (fs : List (String × Val))
    (h : (fs.map Prod.fst).Nodup) : hydrateVal (Val.obj fs) = ⟨fs⟩ := by
  have := assignFields_disjoint fs [] h (fun p _ => rfl)
  simp only [hydrateVal, this, List.nil_append]

lemma lookupF_assignFields (fs : List (String × Val)) :
    ∀ (cur : List (String × Val)) (k : String), (fs.map Prod.fst).Nodup →
      lookupF (assignFields cur (Val.obj fs)) k
        = match lookupF fs k with
          | some w => some w
          | none => lookupF cur k := by
  induction fs with
  | nil => intro cur k _; simp [assignFields, lookupF]
  | cons p rest ih =>
    intro cur k hnd
    obtain ⟨k1, v1⟩ := p
    have hnd2 : k1 ∉ rest.map Prod.fst ∧ (rest.map Prod.fst).Nodup := by
      simp only [List.map_cons, List.nodup_cons] at hnd
      exact hnd
    have hstep : assignFields cur (Val.obj ((k1, v1) :: rest))
        = assignFields (setKey cur k1 v1) (Val.obj rest) := by
      simp [assignFields]
    rw [hstep, ih (setKey cur k1 v1) k hnd2.2]
    by_cases h1 : k1 = k
    · subst h1
      have hnone : lookupF rest k1 = none := by
        apply lookupF_eq_none_of_forall
        intro q hq hqk
        exact hnd2.1 (by simpa [hqk] using List.mem_map_of_mem Prod.fst hq)
      simp [lookupF, hnone, lookupF_setKey]
    · cases hfs : lookupF rest k <;> simp [lookupF, h1, hfs, lookupF_setKey]

lemma lookupF_eraseKey (l : List (String × Val)) (k : String) :
    lookupF (eraseKey l k) k = none := by
  apply lookupF_eq_none_of_forall
  intro p hp
  have := (List.mem_filter.mp hp).2
  simpa using this

lemma useList_spec (es : List ExtSpec)
    (h : ∀ e ∈ es, e.isFunction = true ∧ e.inst.hasApply = true) :
    ∀ acc : Bool,
      (useList es acc).1 = UseOutcome.ret (acc && es.all (fun e => e.inst.applyResult)) ∧
      (useList es acc).2.length = es.length ∧
      ∀ i, i < es.length →
        (useList es acc).2.get? i
          = some (acc && ((es.take i).all (fun e => e.inst.applyResult))) := by
  induction es with
  | nil =>
    intro acc
    refine ⟨by simp [useList], by simp [useList], ?_⟩
    intro i hi
    cases hi
  | cons e rest ih =>
    intro acc
    have he := h e (List.mem_cons_self _ _)
    have hrest := fun q hq => h q (List.mem_cons_of_mem e hq)
    have hsingle : useSingle e = (UseOutcome.ret e.inst.applyResult, true) := by
      simp [useSingle, he.1, he.2, instanceOfExtension, UVal.jsNot, UVal.truthy]
    cases acc with
    | true =>
      have hstep : useList (e :: rest) true
          = ((useList rest e.inst.applyResult).1,
             true :: (useList rest e.inst.applyResult).2) := by
        simp [useList, hsingle]
      obtain ⟨ih1, ih2, ih3⟩ := ih hrest e.inst.applyResult
      refine ⟨?_, ?_, ?_⟩
      · rw [hstep]; simpa using ih1
      · rw [hstep]; simpa using ih2
      · intro i hi
        rw [hstep]
        cases i with
        | zero => simp
        | succ j =>
          have hj : j < rest.length := by simpa using hi
          simpa using ih3 j hj
    | false =>
      have hstep : useList (e :: rest) false
          = ((useList rest false).1, false :: (useList rest false).2) := by
        simp [useList]
      obtain ⟨ih1, ih2, ih3⟩ := ih hrest false
      refine ⟨?_, ?_, ?_⟩
      · rw [hstep]; simpa using ih1
      · rw [hstep]; simpa using ih2
      · intro i hi
        rw [hstep]
        cases i with
        | zero => simp
        | succ j =>
          have hj : j < rest.length := by simpa using hi
          simpa using ih3 j hj

/-- C1 counterexample: a batch of two constructible extensions whose
instances implement apply, the first failing and the second
succeeding.  Model.use yields false, but the invocation record is true
then false: the apply of the second extension is never invoked.  This
refutes the claim that every extension in the sequence is attempted
regardless of an earlier failure. -/
theorem use_batch_short_circuit_cex :
    Model.use (UseArg.many
      [⟨true, ⟨true, true, false⟩⟩, ⟨true, ⟨true, true, true⟩⟩])
      = (UseOutcome.ret false, [true, false]) := by
  decide

/-- C1 (amended): for a sequence of well-behaved extensions, that is
constructible ones whose instances implement apply, Model.use returns
the logical AND of all individual apply results; the extensions are
attempted in order only while every earlier result was true: the apply
of the extension at position i is invoked exactly when the apply
results of all earlier extensions were true, so an extension yielding
false prevents every later extension from being attempted. -/
theorem use_batch_aggregate_amended (es : List ExtSpec)
    (h : ∀ e ∈ es, e.isFunction = true ∧ e.inst.hasApply = true) :
    (Model.use (UseArg.many es)).1
      = UseOutcome.ret (es.all (fun e => e.inst.applyResult)) ∧
    (Model.use (UseArg.many es)).2.length = es.length ∧
    ∀ i, i < es.length →
      (Model.use (UseArg.many es)).2.get? i
        = some ((es.take i).all (fun e => e.inst.applyResult)) := by
  obtain ⟨h1, h2, h3⟩ := useList_spec es h true
  refine ⟨by simpa [Model.use] using h1, by simpa [Model.use] using h2, ?_⟩
  intro i hi
  simpa [Model.use] using h3 i hi

/-- C1 witness: with the three well-behaved extensions succeed, fail,
succeed, the amended theorem yields that the apply of the third one is
not invoked. -/
theorem use_batch_aggregate_amended_witness :
    (Model.use (UseArg.many
      [⟨true, ⟨true, true, true⟩⟩, ⟨true, ⟨true, true, false⟩⟩,
       ⟨true, ⟨true, true, true⟩⟩])).2.get? 2 = some false := by
  have h := (use_batch_aggregate_amended
      [⟨true, ⟨true, true, true⟩⟩, ⟨true, ⟨true, true, false⟩⟩,
       ⟨true, ⟨true, true, true⟩⟩] (by decide)).2.2 2 (by decide)
  exact h.trans (by decide)

/-- C2: the conformance guard of Model.use is dead code, so the claim
is right about the intent and the code violates it.  In the written
guard the logical negation binds tighter than instanceof, so the guard
asks whether a primitive boolean is an instance of Extension, which
never holds: a function argument whose instance does not conform still
has its apply invoked when present, and raises a TypeError when apply
is missing, instead of yielding false without invoking apply.  Only a
non-function argument yields false as claimed. -/
theorem use_capability_check_dead :
    (∀ inst : ExtInstance,
      instanceOfExtension (UVal.jsNot (UVal.inst inst)) = false) ∧
    useSingle ⟨true, ⟨false, true, true⟩⟩ = (UseOutcome.ret true, true) ∧
    useSingle ⟨true, ⟨false, false, true⟩⟩ = (UseOutcome.throw, false) ∧
    useSingle ⟨false, ⟨false, false, false⟩⟩ = (UseOutcome.ret false, false) :=
  ⟨fun _ => rfl, rfl, rfl, rfl⟩

/-- C3 counterexample: a model type whose query default binds a to 1,
and a caller query binding b to 2.  The storage engine receives the
caller query unchanged, while the merge of the default with the caller
query would also carry the binding of a; the two differ.  This refutes
the claim that the query passed to the storage engine is the merge of
the query default with the caller query. -/
theorem update_query_unmerged_cex :
    traceOf (Model.update ⟨Val.obj [("a", Val.num 1)], Val.obj [], Val.obj []⟩
        (Val.obj [("b", Val.num 2)]) (Val.obj []) Val.undef)
        (fun _ => Val.num 1)
      = [StoreCall.update (Val.obj [("b", Val.num 2)]) (Val.obj [])
          (Val.obj [("multi", Val.bool true)])] ∧
    augment (Val.obj [("a", Val.num 1)]) (Val.obj [("b", Val.num 2)])
      = Val.obj [("a", Val.num 1), ("b", Val.num 2)] ∧
    (Val.obj [("b", Val.num 2)] : Val)
      ≠ Val.obj [("a", Val.num 1), ("b", Val.num 2)] :=
  ⟨rfl, rfl, by simp⟩

/-- C3 (amended): Model.update passes the caller query to the storage
engine unmerged whenever the caller supplies one; an absent query is
replaced by the empty object; only the options are merged, over the
default with multi set to true. -/
theorem update_passes_query_unmerged (dfl : Defaults) (q v o : Val) (eng : Engine)
    (hq : q ≠ Val.undef) :
    traceOf (Model.update dfl q v o) eng
      = [StoreCall.update q v (augment (Val.obj [("multi", Val.bool true)]) o)] := by
  cases q with
  | undef => exact absurd rfl hq
  | null => rfl
  | bool b => rfl
  | num n => rfl
  | str s => rfl
  | arr xs => rfl
  | obj fs => rfl

/-- C3 witness: the amended theorem applied at a concrete type default,
query, values and engine. -/
theorem update_passes_query_unmerged_witness :
    traceOf (Model.update ⟨Val.obj [("a", Val.num 1)], Val.obj [], Val.obj []⟩
        (Val.obj [("b", Val.num 2)]) (Val.obj []) Val.undef)
        (fun _ => Val.num 1)
      = [StoreCall.update (Val.obj [("b", Val.num 2)]) (Val.obj [])
          (augment (Val.obj [("multi", Val.bool true)]) Val.undef)] :=
  update_passes_query_unmerged ⟨Val.obj [("a", Val.num 1)], Val.obj [], Val.obj []⟩
    (Val.obj [("b", Val.num 2)]) (Val.obj []) Val.undef (fun _ => Val.num 1)
    (by simp)

/-- C4: for both Model.update and Model.remove the options handed to
the storage engine are the caller options merged over the default with
multi set to true; with no caller options the effective options enable
multi-record operation, and a caller value for multi, in particular
false, overrides the default. -/
theorem update_remove_multi_default (dfl : Defaults) (q v o : Val) (b : Bool)
    (eng : Engine) :
    traceOf (Model.update dfl q v o) eng
      = [StoreCall.update (Model.defQ q) v
          (augment (Val.obj [("multi", Val.bool true)]) o)] ∧
    traceOf (Model.remove dfl q o) eng
      = [StoreCall.remove (Model.defQ q)
          (augment (Val.obj [("multi", Val.bool true)]) o)] ∧
    augment (Val.obj [("multi", Val.bool true)]) Val.undef
      = Val.obj [("multi", Val.bool true)] ∧
    augment (Val.obj [("multi", Val.bool true)]) (Val.obj [("multi", Val.bool b)])
      = Val.obj [("multi", Val.bool b)] :=
  ⟨rfl, rfl, rfl, rfl⟩

/-- C8: Model.find merges query and projection with the type defaults;
the method itself performs no engine execution, returning the cursor
synchronously; the terminal execution of the cursor performs exactly
the one merged find execution and passes the raw engine result through
the Result Hydrator; and every other CRUD entry point performs its one
engine execution eagerly at invocation, making find the only non-eager
entry point. -/
theorem find_lazy_merged_wrapped (dfl : Defaults) (q p v vals opts : Val)
    (eng : Engine) :
    (Model.find dfl q p).query = augment dfl.query (Model.defQ q) ∧
    (Model.find dfl q p).projection = augment dfl.projection p ∧
    traceOf (Model.findM dfl q p) eng = [] ∧
    traceOf (Model.find dfl q p).exec eng
      = [StoreCall.find (augment dfl.query (Model.defQ q))
          (augment dfl.projection p)] ∧
    resultOf (Model.find dfl q p).exec eng
      = convert (eng (StoreCall.find (augment dfl.query (Model.defQ q))
          (augment dfl.projection p))) ∧
    traceOf (Model.findOne dfl q p) eng
      = [StoreCall.findOne (augment dfl.query (Model.defQ q))
          (augment dfl.projection p)] ∧
    traceOf (Model.count dfl q) eng
      = [StoreCall.count (augment dfl.query (Model.defQ q))] ∧
    traceOf (Model.insert dfl v) eng
      = [StoreCall.insert (Model.insertPayload dfl v)] ∧
    traceOf (Model.update dfl q vals opts) eng
      = [StoreCall.update (Model.defQ q) vals
          (augment (Val.obj [("multi", Val.bool true)]) opts)] ∧
    traceOf (Model.remove dfl q opts) eng
      = [StoreCall.remove (Model.defQ q)
          (augment (Val.obj [("multi", Val.bool true)]) opts)] ∧
    traceOf (Model.create dfl v) eng
      = [StoreCall.insert (Model.insertPayload dfl v)] :=
  ⟨rfl, rfl, rfl, rfl, rfl, rfl, rfl, rfl, rfl, rfl, rfl⟩

/-- C7: Model.insert merges the values default into each record: for
an array argument the engine payload is the per-element merge in input
order, for a single object argument it is the single merge; hydration
mirrors the engine result shape, a record answer yielding one hydrated
instance and a sequence answer yielding the ordered sequence of
hydrated instances, one per element and order preserved. -/
theorem insert_merges_and_mirrors_shape (dfl : Defaults) (vs : List Val)
    (fs : List (String × Val)) (eng : Engine) :
    traceOf (Model.insert dfl (Val.arr vs)) eng
      = [StoreCall.insert (Val.arr (vs.map (augment dfl.values)))] ∧
    (∀ rs : List Val,
      eng (StoreCall.insert (Val.arr (vs.map (augment dfl.values)))) = Val.arr rs →
      resultOf (Model.insert dfl (Val.arr vs)) eng = Hyd.many (rs.map hydrateVal) ∧
      (rs.map hydrateVal).length = rs.length) ∧
    traceOf (Model.insert dfl (Val.obj fs)) eng
      = [StoreCall.insert (augment dfl.values (Val.obj fs))] ∧
    (∀ rf : List (String × Val),
      eng (StoreCall.insert (augment dfl.values (Val.obj fs))) = Val.obj rf →
      resultOf (Model.insert dfl (Val.obj fs)) eng
        = Hyd.one (hydrateVal (Val.obj rf))) := by
  refine ⟨rfl, ?_, rfl, ?_⟩
  · intro rs hrs
    refine ⟨?_, by simp⟩
    have h1 : resultOf (Model.insert dfl (Val.arr vs)) eng
        = convert (eng (StoreCall.insert (Val.arr (vs.map (augment dfl.values))))) := rfl
    rw [h1, hrs]
    rfl
  · intro rf hrf
    have h1 : resultOf (Model.insert dfl (Val.obj fs)) eng
        = convert (eng (StoreCall.insert (augment dfl.values (Val.obj fs)))) := rfl
    rw [h1, hrf]
    rfl

/-- C7 witness: a two-element bulk insert with a values default,
executed against an engine answering a two-element sequence, resolves
to the ordered two-element sequence of hydrated instances. -/
theorem insert_merges_and_mirrors_shape_witness :
    resultOf (Model.insert ⟨Val.obj [], Val.obj [], Val.obj [("k", Val.num 0)]⟩
        (Val.arr [Val.obj [("a", Val.num 1)], Val.obj [("b", Val.num 2)]]))
        (fun _ => Val.arr [Val.obj [("x", Val.num 7)], Val.obj [("y", Val.num 8)]])
      = Hyd.many [hydrateVal (Val.obj [("x", Val.num 7)]),
          hydrateVal (Val.obj [("y", Val.num 8)])] := by
  have h := ((insert_merges_and_mirrors_shape
      ⟨Val.obj [], Val.obj [], Val.obj [("k", Val.num 0)]⟩
      [Val.obj [("a", Val.num 1)], Val.obj [("b", Val.num 2)]] []
      (fun _ => Val.arr [Val.obj [("x", Val.num 7)], Val.obj [("y", Val.num 8)]])).2.1
      [Val.obj [("x", Val.num 7)], Val.obj [("y", Val.num 8)]] rfl).1
  exact h

/-- C5: Model.prototype.save with a truthy identifier issues exactly
the class-level update on the identifier with a set modifier carrying
the current field snapshot and the option returnUpdatedDocs set to
true, merged over the multi default, and reassigns the instance fields
from the returned record, keeping the identifier when the returned
record carries the same one; with a falsy identifier it issues exactly
the class-level insert of the current field snapshot merged with the
values default, and assigns the engine-generated record, identifier
included, onto the same instance.  In both cases the produced state is
the instance itself with its fields reassigned. -/
theorem instance_save_contract (dfl : Defaults) (i : ModelInstance) (eng : Engine) :
    (truthy (getF i "_id") = true →
      traceOf (ModelInstance.save dfl i) eng
        = [StoreCall.update (Val.obj [("_id", getF i "_id")])
            (Val.obj [("$set", Val.obj i.fields)])
            (Val.obj [("multi", Val.bool true), ("returnUpdatedDocs", Val.bool true)])] ∧
      ∀ rf : List (String × Val),
        eng (StoreCall.update (Val.obj [("_id", getF i "_id")])
            (Val.obj [("$set", Val.obj i.fields)])
            (Val.obj [("multi", Val.bool true), ("returnUpdatedDocs", Val.bool true)]))
          = Val.arr [Val.obj rf] →
        (rf.map Prod.fst).Nodup →
        lookupF rf "_id" = some (getF i "_id") →
        resultOf (ModelInstance.save dfl i) eng = ModelInstance.assign i (Val.obj rf) ∧
        getF (resultOf (ModelInstance.save dfl i) eng) "_id" = getF i "_id") ∧
    (truthy (getF i "_id") = false →
      traceOf (ModelInstance.save dfl i) eng
        = [StoreCall.insert (augment dfl.values (Val.obj i.fields))] ∧
      ∀ (rf : List (String × Val)) (nid : Val),
        eng (StoreCall.insert (augment dfl.values (Val.obj i.fields))) = Val.obj rf →
        (rf.map Prod.fst).Nodup →
        lookupF rf "_id" = some nid →
        resultOf (ModelInstance.save dfl i) eng = ModelInstance.assign i (Val.obj rf) ∧
        getF (resultOf (ModelInstance.save dfl i) eng) "_id" = nid) := by
  constructor
  · intro htr
    have hbody : ModelInstance.save dfl i
        = bindE (Model.update dfl (Val.obj [("_id", getF i "_id")])
            (Val.obj [("$set", i.toPOJO)]) (Val.obj [("returnUpdatedDocs", Val.bool true)]))
          (fun result => pureE (i.assign (hydFirst result))) := by
      simp [ModelInstance.save, htr]
    refine ⟨by rw [hbody]; rfl, ?_⟩
    intro rf heng hnd hlk
    have hres : resultOf (ModelInstance.save dfl i) eng
        = i.assign (hydFirst (convert (eng (StoreCall.update
            (Val.obj [("_id", getF i "_id")])
            (Val.obj [("$set", Val.obj i.fields)])
            (Val.obj [("multi", Val.bool true), ("returnUpdatedDocs", Val.bool true)]))))) := by
      rw [hbody]; rfl
    have hcv : hydFirst (convert (Val.arr [Val.obj rf])) = Val.obj rf := by
      have hstep : hydFirst (convert (Val.arr [Val.obj rf]))
          = Val.obj (hydrateVal (Val.obj rf)).fields := rfl
      rw [hstep, hydrateVal_obj_of_nodup rf hnd]
    have hres2 : resultOf (ModelInstance.save dfl i) eng
        = ModelInstance.assign i (Val.obj rf) := by
      rw [hres, heng, hcv]
    refine ⟨hres2, ?_⟩
    rw [hres2]
    have h2 : lookupF (assignFields i.fields (Val.obj rf)) "_id"
        = some (getF i "_id") := by
      rw [lookupF_assignFields rf i.fields "_id" hnd, hlk]
    simp [getF, ModelInstance.assign, h2]
  · intro hfa
    have hbody : ModelInstance.save dfl i
        = bindE (Model.insert dfl i.toPOJO)
          (fun result => pureE (i.assign (hydFirst result))) := by
      simp [ModelInstance.save, hfa]
    refine ⟨by rw [hbody]; rfl, ?_⟩
    intro rf nid heng hnd hlk
    have hres : resultOf (ModelInstance.save dfl i) eng
        = i.assign (hydFirst (convert (eng (StoreCall.insert
            (augment dfl.values (Val.obj i.fields)))))) := by
      rw [hbody]; rfl
    have hcv : hydFirst (convert (Val.obj rf)) = Val.obj rf := by
      have hstep : hydFirst (convert (Val.obj rf))
          = Val.obj (hydrateVal (Val.obj rf)).fields := rfl
      rw [hstep, hydrateVal_obj_of_nodup rf hnd]
    have hres2 : resultOf (ModelInstance.save dfl i) eng
        = ModelInstance.assign i (Val.obj rf) := by
      rw [hres, heng, hcv]
    refine ⟨hres2, ?_⟩
    rw [hres2]
    have h2 : lookupF (assignFields i.fields (Val.obj rf)) "_id" = some nid := by
      rw [lookupF_assignFields rf i.fields "_id" hnd, hlk]
    simp [getF, ModelInstance.assign, h2]

/-- C5 witness: an instance carrying identifier X, saved against an
engine answering the updated record with the same identifier, keeps
identifier X after the save. -/
theorem instance_save_contract_witness :
    getF (resultOf (ModelInstance.save ⟨Val.obj [], Val.obj [], Val.obj []⟩
        ⟨[("_id", Val.str "X"), ("t", Val.num 1)]⟩)
        (fun _ => Val.arr [Val.obj [("_id", Val.str "X"), ("t", Val.num 2)]])) "_id"
      = Val.str "X" := by
  have h := ((instance_save_contract ⟨Val.obj [], Val.obj [], Val.obj []⟩
      ⟨[("_id", Val.str "X"), ("t", Val.num 1)]⟩
      (fun _ => Val.arr [Val.obj [("_id", Val.str "X"), ("t", Val.num 2)]])).1
      (by decide)).2 [("_id", Val.str "X"), ("t", Val.num 2)] rfl (by decide) rfl
  exact h.2.trans rfl

/-- C6: Model.prototype.remove with a falsy identifier yields zero,
leaves the instance untouched, and performs no storage-engine call;
with a truthy identifier it issues exactly the class-level remove on
the identifier with the option multi set to false, so the engine is
told to delete at most one record, and yields the engine count
unchanged. -/
theorem instance_remove_guard (dfl : Defaults) (i : ModelInstance) (eng : Engine) :
    (truthy (getF i "_id") = false →
      ModelInstance.remove dfl i eng = ((i, Hyd.raw (Val.num 0)), [])) ∧
    (truthy (getF i "_id") = true →
      traceOf (ModelInstance.remove dfl i) eng
        = [StoreCall.remove (Val.obj [("_id", getF i "_id")])
            (Val.obj [("multi", Val.bool false)])] ∧
      ∀ n : Int,
        eng (StoreCall.remove (Val.obj [("_id", getF i "_id")])
            (Val.obj [("multi", Val.bool false)])) = Val.num n →
        resultOf (ModelInstance.remove dfl i) eng = (i, Hyd.raw (Val.num n))) := by
  constructor
  · intro hfa
    simp [ModelInstance.remove, hfa, pureE]
  · intro htr
    have hbody : ModelInstance.remove dfl i
        = bindE (Model.remove dfl (Val.obj [("_id", getF i "_id")])
            (Val.obj [("multi", Val.bool false)])) (fun r => pureE (i, r)) := by
      simp [ModelInstance.remove, htr]
    refine ⟨by rw [hbody]; rfl, ?_⟩
    intro n hn
    have hres : resultOf (ModelInstance.remove dfl i) eng
        = (i, convert (eng (StoreCall.remove (Val.obj [("_id", getF i "_id")])
            (Val.obj [("multi", Val.bool false)])))) := by
      rw [hbody]; rfl
    rw [hres, hn]
    rfl

/-- C6 witness: an instance with no identifier yields zero with an
empty trace; an instance with identifier X against an engine counting
three yields three. -/
theorem instance_remove_guard_witness :
    ModelInstance.remove ⟨Val.obj [], Val.obj [], Val.obj []⟩ ⟨[]⟩
        (fun _ => Val.num 3)
      = ((⟨[]⟩, Hyd.raw (Val.num 0)), []) ∧
    resultOf (ModelInstance.remove ⟨Val.obj [], Val.obj [], Val.obj []⟩
        ⟨[("_id", Val.str "X")]⟩) (fun _ => Val.num 3)
      = (⟨[("_id", Val.str "X")]⟩, Hyd.raw (Val.num 3)) := by
  constructor
  · exact (instance_remove_guard ⟨Val.obj [], Val.obj [], Val.obj []⟩ ⟨[]⟩
      (fun _ => Val.num 3)).1 rfl
  · exact ((instance_remove_guard ⟨Val.obj [], Val.obj [], Val.obj []⟩
      ⟨[("_id", Val.str "X")]⟩ (fun _ => Val.num 3)).2 (by decide)).2 3 rfl

/-- C9: Model.prototype.duplicate issues exactly one insert whose
payload is the values default merged into the snapshot of the current
fields with the identifier stripped, the stripped snapshot carrying no
identifier binding; the instance itself, identifier included, is left
unmodified; and a record answer from the engine hydrates into the
returned new instance. -/
theorem duplicate_strips_id_preserves_source (dfl : Defaults) (i : ModelInstance)
    (eng : Engine) :
    traceOf (ModelInstance.duplicate dfl i) eng
      = [StoreCall.insert (augment dfl.values (Val.obj (eraseKey i.fields "_id")))] ∧
    lookupF (eraseKey i.fields "_id") "_id" = none ∧
    (resultOf (ModelInstance.duplicate dfl i) eng).1 = i ∧
    ∀ rf : List (String × Val),
      eng (StoreCall.insert (augment dfl.values (Val.obj (eraseKey i.fields "_id"))))
        = Val.obj rf →
      (rf.map Prod.fst).Nodup →
      (resultOf (ModelInstance.duplicate dfl i) eng).2 = Hyd.one ⟨rf⟩ := by
  refine ⟨rfl, lookupF_eraseKey i.fields "_id", rfl, ?_⟩
  intro rf heng hnd
  have hres : (resultOf (ModelInstance.duplicate dfl i) eng).2
      = convert (eng (StoreCall.insert
          (augment dfl.values (Val.obj (eraseKey i.fields "_id"))))) := rfl
  rw [hres, heng]
  have hstep : convert (Val.obj rf) = Hyd.one (hydrateVal (Val.obj rf)) := rfl
  rw [hstep, hydrateVal_obj_of_nodup rf hnd]

/-- C9 witness: duplicating an instance with identifier X inserts the
identifier-free snapshot, hydrates the engine record with identifier Y,
and leaves the source instance unchanged. -/
theorem duplicate_strips_id_preserves_source_witness :
    (resultOf (ModelInstance.duplicate ⟨Val.obj [], Val.obj [], Val.obj []⟩
        ⟨[("_id", Val.str "X"), ("t", Val.num 1)]⟩)
        (fun _ => Val.obj [("_id", Val.str "Y"), ("t", Val.num 1)])).2
      = Hyd.one ⟨[("_id", Val.str "Y"), ("t", Val.num 1)]⟩ ∧
    (resultOf (ModelInstance.duplicate ⟨Val.obj [], Val.obj [], Val.obj []⟩
        ⟨[("_id", Val.str "X"), ("t", Val.num 1)]⟩)
        (fun _ => Val.obj [("_id", Val.str "Y"), ("t", Val.num 1)])).1
      = ⟨[("_id", Val.str "X"), ("t", Val.num 1)]⟩ := by
  constructor
  · exact (duplicate_strips_id_preserves_source ⟨Val.obj [], Val.obj [], Val.obj []⟩
      ⟨[("_id", Val.str "X"), ("t", Val.num 1)]⟩
      (fun _ => Val.obj [("_id", Val.str "Y"), ("t", Val.num 1)])).2.2.2
      [("_id", Val.str "Y"), ("t", Val.num 1)] rfl (by decide)
  · exact (duplicate_strips_id_preserves_source ⟨Val.obj [], Val.obj [], Val.obj []⟩
      ⟨[("_id", Val.str "X"), ("t", Val.num 1)]⟩
      (fun _ => Val.obj [("_id", Val.str "Y"), ("t", Val.num 1)])).2.2.1

/-- C10: the persisted versus transient distinction is the truthiness
of the identifier field, not its presence: when the identifier holds
any falsy value, that is undefined, null, false, zero or the empty
string, the instance-level remove yields zero with no storage call,
and save takes the insert path. -/
theorem falsy_id_transient (dfl : Defaults) (i : ModelInstance) (v : Val)
    (eng : Engine)
    (hv : v = Val.undef ∨ v = Val.null ∨ v = Val.bool false ∨ v = Val.num 0 ∨
      v = Val.str "") :
    truthy (getF ⟨setKey i.fields "_id" v⟩ "_id") = false ∧
    ModelInstance.remove dfl ⟨setKey i.fields "_id" v⟩ eng
      = ((⟨setKey i.fields "_id" v⟩, Hyd.raw (Val.num 0)), []) ∧
    traceOf (ModelInstance.save dfl ⟨setKey i.fields "_id" v⟩) eng
      = [StoreCall.insert (augment dfl.values (Val.obj (setKey i.fields "_id" v)))] := by
  have hget : getF ⟨setKey i.fields "_id" v⟩ "_id" = v := by
    simp [getF, lookupF_setKey]
  have hfalse : truthy (getF ⟨setKey i.fields "_id" v⟩ "_id") = false := by
    rw [hget]
    rcases hv with rfl | rfl | rfl | rfl | rfl <;> rfl
  refine ⟨hfalse, ?_, ?_⟩
  · simp [ModelInstance.remove, hfalse, pureE]
  · have hbody : ModelInstance.save dfl ⟨setKey i.fields "_id" v⟩
        = bindE (Model.insert dfl (ModelInstance.toPOJO ⟨setKey i.fields "_id" v⟩))
          (fun result => pureE (ModelInstance.assign ⟨setKey i.fields "_id" v⟩
            (hydFirst result))) := by
      simp [ModelInstance.save, hfalse]
    rw [hbody]
    rfl

/-- C10 witness: an instance whose identifier field holds the number
zero is treated as transient by both remove and save. -/
theorem falsy_id_transient_witness :
    truthy (getF ⟨setKey [("t", Val.num 5)] "_id" (Val.num 0)⟩ "_id") = false ∧
    ModelInstance.remove ⟨Val.obj [], Val.obj [], Val.obj []⟩
        ⟨setKey [("t", Val.num 5)] "_id" (Val.num 0)⟩ (fun _ => Val.num 9)
      = ((⟨setKey [("t", Val.num 5)] "_id" (Val.num 0)⟩, Hyd.raw (Val.num 0)), []) ∧
    traceOf (ModelInstance.save ⟨Val.obj [], Val.obj [], Val.obj []⟩
        ⟨setKey [("t", Val.num 5)] "_id" (Val.num 0)⟩) (fun _ => Val.num 9)
      = [StoreCall.insert (augment (Val.obj [])
          (Val.obj (setKey [("t", Val.num 5)] "_id" (Val.num 0))))] :=
  falsy_id_transient ⟨Val.obj [], Val.obj [], Val.obj []⟩ ⟨[("t", Val.num 5)]⟩
    (Val.num 0) (fun _ => Val.num 9)
    (Or.inr (Or.inr (Or.inr (Or.inl rfl))))
